import Mathlib

/-!
# Verification of the supereeg correlation-model engine

Shallow embedding of the repository's three source files:

* `src/supereeg/model.py` — the `Model` class (`__init__`/fit, `predict`,
  `update`, `plot`);
* `src/superEEG/brain.py` — the `Brain` subject-record constructor;
* `src/code/recon_with_model.py` — the CLI reconstruction driver.

The numeric helpers the model imports (`supereeg/helpers.py`: `rbf`,
`expand_corrmat_fit`, `expand_corrmat_predict`, `r2z`, `z2r`, `get_corrmat`,
`filter_elecs`, `near_neighbor`, `count_overlapping`, `timeseries_recon`) and
the driver's `stats`/`bookkeeping` modules are not part of the sources; those
are modelled from the specification and are marked `Modelled from the spec:`
in their doc comments.

Machine floats are embedded as `NVal`: either a finite rational or a single
non-finite value `NVal.nan`.  The specification's propagation policy (§7)
treats NaN/Inf uniformly as invalid numeric edge cases, so both are collapsed
into `NVal.nan`; every property proved below depends only on the
finite/non-finite distinction, never on the sign of an infinity.
-/

unseal Rat.add Rat.mul Rat.inv Rat.sub

namespace SupereegProof

/-- A floating-point value: a finite rational, or the single non-finite
"invalid" value (NaN and the infinities collapsed, per the spec's §7
propagation policy which lumps NaN/Inf together as invalid cells). -/
inductive NVal where
  | nan : NVal
  | fin : ℚ → NVal
deriving DecidableEq, Repr

namespace NVal

/-- Addition; any non-finite operand poisons the result. -/
def add : NVal → NVal → NVal
  | fin a, fin b => fin (a + b)
  | _, _ => nan

/-- Multiplication; any non-finite operand poisons the result
(numpy: `nan * 0 = nan`). -/
def mul : NVal → NVal → NVal
  | fin a, fin b => fin (a * b)
  | _, _ => nan

/-- Division, `np.divide` style: a zero denominator gives a non-finite
result (`0/0 = nan`; `a/0 = ±inf`, collapsed into `nan` here). -/
def div : NVal → NVal → NVal
  | fin a, fin b => if b = 0 then nan else fin (a / b)
  | _, _ => nan

/-- `np.isnan` (true exactly on the non-finite value). -/
def isNan : NVal → Bool
  | nan => true
  | fin _ => false

/-- Coercion used by `np.nansum`: non-finite entries count as 0. -/
def toQ : NVal → ℚ
  | nan => 0
  | fin a => a

/-- `np.nansum` over a two-layer `dstack`: each non-finite entry is treated
as 0, and an all-invalid cell sums to 0. -/
def nansum2 (a b : NVal) : NVal := fin (a.toQ + b.toQ)

theorem addComm (a b : NVal) : add a b = add b a := by
  cases a <;> cases b <;> simp [add, add_comm]

theorem mulComm (a b : NVal) : mul a b = mul b a := by
  cases a <;> cases b <;> simp [mul, mul_comm]

theorem add_fin_zero (a : NVal) : add a (fin 0) = a := by
  cases a <;> simp [add]

theorem nansum2Comm (a b : NVal) : nansum2 a b = nansum2 b a := by
  simp [nansum2, add_comm]

end NVal

/-- A dense matrix of floating-point values (row-major list of rows). -/
abbrev Mat := List (List NVal)

/-- Entry access with numpy's in-bounds reads modelled by `getD`
(all accesses in the development are within bounds; the default is
irrelevant there). -/
def entry (M : Mat) (i j : Nat) : NVal := (M.getD i []).getD j (.fin 0)

/-- Build an `n × m` matrix from an entry function. -/
def mkMat (n m : Nat) (f : Nat → Nat → NVal) : Mat :=
  (List.range n).map fun i => (List.range m).map fun j => f i j

theorem entry_mkMat {n m i j : Nat} (f : Nat → Nat → NVal)
    (hi : i < n) (hj : j < m) : entry (mkMat n m f) i j = f i j := by
  unfold entry mkMat
  have h1 : ((List.range n).map fun i => (List.range m).map fun j => f i j).getD i []
      = (List.range m).map fun j => f i j := by
    rw [List.getD_eq_getElem?_getD, List.getElem?_map, List.getElem?_range hi]
    rfl
  rw [h1, List.getD_eq_getElem?_getD, List.getElem?_map, List.getElem?_range hj]
  rfl

/-- Elementwise sum of two `n × n` matrices (numpy `+` on same-shape
arrays). -/
def matAddN (n : Nat) (A B : Mat) : Mat :=
  mkMat n n fun i j => NVal.add (entry A i j) (entry B i j)

/-- Elementwise quotient of two `n × n` matrices (`np.divide`). -/
def matDivide (n : Nat) (A B : Mat) : Mat :=
  mkMat n n fun i j => NVal.div (entry A i j) (entry B i j)

/-- Elementwise `np.nansum(np.dstack((A, B)), 2)` for `n × n` matrices. -/
def nansumMat (n : Nat) (A B : Mat) : Mat :=
  mkMat n n fun i j => NVal.nansum2 (entry A i j) (entry B i j)

/-- Elementwise map over an `n × n` matrix. -/
def matMapN (n : Nat) (f : NVal → NVal) (A : Mat) : Mat :=
  mkMat n n fun i j => f (entry A i j)

/-- `np.fill_diagonal(A, v)` on an `n × n` matrix. -/
def fillDiagN (n : Nat) (A : Mat) (v : NVal) : Mat :=
  mkMat n n fun i j => if i = j then v else entry A i j

/-- An electrode location: an MNI coordinate triple. -/
abbrev Loc := ℚ × ℚ × ℚ

/-- A default coordinate for always-in-bounds `getD` accesses. -/
def loc0 : Loc := (0, 0, 0)

/-- Squared Euclidean distance between two locations (square roots are
irrational, so distances are compared through their squares throughout;
this is equivalent for all comparisons performed). -/
def dist2 (a b : Loc) : ℚ :=
  (a.1 - b.1) ^ 2 + (a.2.1 - b.2.1) ^ 2 + (a.2.2 - b.2.2) ^ 2

/-- Modelled from the spec: the spatial weight kernel (§4.2) between one
target and one source location — a strictly positive, monotonically
decreasing rational function of the squared distance.  The spec leaves the
exact falloff open (§9 "Open question"); the claims below depend only on
symmetry and positivity, which any admissible kernel has.  The bandwidth is
the library default (width 20, so 400 as a squared scale). -/
def rbfWeight (a b : Loc) : ℚ := 1 / (1 + dist2 a b / 400)

/-- Modelled from the spec: `rbf(target, source)` — the m × n weight matrix
between two location sets (§4.2). -/
def rbf (target source : List Loc) : Mat :=
  mkMat target.length source.length fun i j =>
    .fin (rbfWeight (target.getD i loc0) (source.getD j loc0))

/-! ## Per-subject statistics (helpers modelled from the spec) -/

/-- Column `k` of a samples × channels data matrix. -/
def colOf (data : List (List ℚ)) (k : Nat) : List ℚ := data.map (·.getD k 0)

/-- Mean of a list of rationals (0 for the empty list, as 0/0 = 0 in ℚ). -/
def meanQ (xs : List ℚ) : ℚ := xs.sum / xs.length

/-- Population covariance of two columns over the first `n` samples. -/
def covQ (n : Nat) (xs ys : List ℚ) : ℚ :=
  (∑ i ∈ Finset.range n, (xs.getD i 0 - meanQ xs) * (ys.getD i 0 - meanQ ys)) / n

/-- Population variance of a column over `n` samples. -/
def varQ (n : Nat) (xs : List ℚ) : ℚ := covQ n xs xs

/-- Modelled from the spec: `get_corrmat` (§4.3 step 1) — the subject's
channel × channel Pearson correlation matrix.  Pearson normalizes by the
product of standard deviations; square roots are irrational, so this
embedding normalizes by the product of variances instead.  Every claim
proved below depends only on the symmetry of this matrix and on which cells
are invalid (a zero-variance channel gives a 0/0 cell), and both are
exactly preserved by this normalization. -/
def get_corrmat (data : List (List ℚ)) (nch : Nat) : Mat :=
  mkMat nch nch fun k l =>
    if varQ data.length (colOf data k) = 0 ∨ varQ data.length (colOf data l) = 0 then .nan
    else .fin (covQ data.length (colOf data k) (colOf data l) /
      (varQ data.length (colOf data k) * varQ data.length (colOf data l)))

/-- Fourth central moment of a column over `n` samples. -/
def moment4 (n : Nat) (xs : List ℚ) : ℚ :=
  (∑ i ∈ Finset.range n, (xs.getD i 0 - meanQ xs) ^ 4) / n

/-- Modelled from the spec: per-channel kurtosis (glossary: the fourth-moment
statistic), `m₄ / m₂²`.  A zero-variance channel has an invalid kurtosis. -/
def kurtQ (n : Nat) (xs : List ℚ) : NVal :=
  if varQ n xs = 0 then .nan else .fin (moment4 n xs / (varQ n xs) ^ 2)

/-- Whether a channel passes the kurtosis filter: kurtosis ≤ threshold
(§4.1; an invalid kurtosis fails the comparison, as any numpy comparison
with NaN is false). -/
def kurtPass (n : Nat) (xs : List ℚ) (thresh : ℚ) : Bool :=
  match kurtQ n xs with
  | .nan => false
  | .fin k => decide (k ≤ thresh)

/-- A subject record as consumed by `Model` (`supereeg/brain.py` is not in
the sources; only the fields the model touches are carried: the
samples × channels data and the electrode locations). -/
structure BrainObj where
  data : List (List ℚ)
  locs : List Loc
deriving DecidableEq, Repr

/-- Select the listed columns of a data matrix (numpy fancy indexing). -/
def selectCols (data : List (List ℚ)) (ks : List Nat) : List (List ℚ) :=
  data.map fun row => ks.map fun k => row.getD k 0

/-- Indices of a subject's channels that pass the kurtosis filter. -/
def keepInds (bo : BrainObj) (thresh : ℚ) : List Nat :=
  (List.range bo.locs.length).filter fun k =>
    kurtPass bo.data.length (colOf bo.data k) thresh

/-- Modelled from the spec: `filter_elecs` (§4.1) — retain the channels
whose kurtosis is at most the threshold, reducing the data columns and the
location set by the same mask. -/
def filter_elecs (bo : BrainObj) (thresh : ℚ) : BrainObj :=
  let ks := keepInds bo thresh
  ⟨selectCols bo.data ks, ks.map fun k => bo.locs.getD k loc0⟩

/-- Modelled from the spec: the Fisher z-transform `r2z` (glossary:
`atanh(r)`), whose exact transcendental values are irrational.  This
embedding uses the odd, strictly monotone rational surrogate `r / (1 - r²)`
with the same domain: it is finite exactly on `(-1, 1)` and invalid at and
beyond the poles `r = ±1` (where `atanh` is undefined / infinite — per §7
non-finite cells are uniformly "invalid").  No claim depends on the
analytic form, only on the invalid-cell pattern. -/
def r2zQ (r : ℚ) : NVal := if 1 ≤ r ^ 2 then .nan else .fin (r / (1 - r ^ 2))

/-- `r2z` lifted elementwise to values. -/
def NVal.r2z : NVal → NVal
  | .nan => .nan
  | .fin r => r2zQ r

/-- Modelled from the spec: the inverse transform `z2r` (`tanh`), embedded
by the odd bounded rational surrogate `z / (1 + z²)`; invalid cells
propagate.  No claim depends on the analytic form. -/
def NVal.z2r : NVal → NVal
  | .nan => .nan
  | .fin z => .fin (z / (1 + z ^ 2))

/-! ## Spatial expansion of a subject correlation matrix (§4.3 step 3) -/

/-- The ordered pairs `(k, l)` with `k < l < s`: the distinct source-location
pairs a correlation cell is built from (the diagonal and each unordered pair
counted once, as in the triangular accumulation loop). -/
def strictPairs (s : Nat) : List (Nat × Nat) :=
  (List.range s).flatMap fun k => ((List.range s).filter fun l => k < l).map fun l => (k, l)

/-- Sum of a list of values (`np.sum`: an invalid term poisons the sum). -/
def sumN (xs : List NVal) : NVal := xs.foldl NVal.add (.fin 0)

/-- The symmetrized weight product tying target cell `(i, j)` to source pair
`(k, l)`: weight of `i` against one endpoint times weight of `j` against the
other, both ways. -/
def weightProd (W : Mat) (i j k l : Nat) : NVal :=
  NVal.add (NVal.mul (entry W i k) (entry W j l)) (NVal.mul (entry W i l) (entry W j k))

/-- Off-diagonal numerator contribution at `(i, j)`: each distinct source
pair's z-value, weighted by the symmetrized weight product. -/
def expandNum (Z W : Mat) (s i j : Nat) : NVal :=
  sumN ((strictPairs s).map fun kl => NVal.mul (weightProd W i j kl.1 kl.2) (entry Z kl.1 kl.2))

/-- Off-diagonal denominator contribution at `(i, j)`: the sum of the weight
products used for that cell. -/
def expandDen (W : Mat) (s i j : Nat) : NVal :=
  sumN ((strictPairs s).map fun kl => weightProd W i j kl.1 kl.2)

/-- Modelled from the spec: `expand_corrmat_fit` (§4.3 step 3) — expand a
subject's `s × s` z-matrix onto `n` reference locations through the `n × s`
weight matrix, producing a numerator contribution and a parallel denominator
contribution, both symmetric with zero diagonal (the accumulation loop only
fills strict off-diagonal cells from distinct source pairs). -/
def expand_corrmat_fit (Z W : Mat) (n s : Nat) : Mat × Mat :=
  (mkMat n n fun i j => if i = j then .fin 0 else expandNum Z W s i j,
   mkMat n n fun i j => if i = j then .fin 0 else expandDen W s i j)

/-- Modelled from the spec: `expand_corrmat_predict` (§4.4 case (a)) — the
same weighted expansion used when growing the model correlation matrix onto
an enlarged location set before reconstruction. -/
def expand_corrmat_predict (Z W : Mat) (n s : Nat) : Mat × Mat :=
  expand_corrmat_fit Z W n s

/-! ## The Model: fit, update, plot (`src/supereeg/model.py`) -/

/-- The correlation model: numerator and denominator accumulators, the
reference location set, and the subject count. -/
structure ModelVal where
  numerator : Mat
  denominator : Mat
  locs : List Loc
  nSubs : Nat
deriving DecidableEq, Repr

/-- One subject's accumulation step of `Model.__init__` (lines 144–166):
filter electrodes, take the correlation matrix, zero its diagonal, z-score
it, and expand it through the rbf weights against the reference set. -/
def fitContribs (locs : List Loc) (bo : BrainObj) (thresh : ℚ) : Mat × Mat :=
  let bo := filter_elecs bo thresh
  let subCorrmat := get_corrmat bo.data bo.locs.length
  let subCorrmat := fillDiagN bo.locs.length subCorrmat (.fin 0)
  let subCorrmatZ := matMapN bo.locs.length NVal.r2z subCorrmat
  let subRbfWeights := rbf locs bo.locs
  expand_corrmat_fit subCorrmatZ subRbfWeights locs.length bo.locs.length

/-- The per-subject accumulation step of the fit loop. -/
def fitStep (locs : List Loc) (thresh : ℚ) (acc : Mat × Mat) (bo : BrainObj) : Mat × Mat :=
  (matAddN locs.length acc.1 (fitContribs locs bo thresh).1,
   matAddN locs.length acc.2 (fitContribs locs bo thresh).2)

/-- `Model.__init__` from data (the fit path, lines 131–175): start from
zero accumulators and add each subject's expanded contributions. -/
def modelFit (locs : List Loc) (data : List BrainObj) (thresh : ℚ) : ModelVal :=
  let n := locs.length
  let acc := data.foldl (fitStep locs thresh)
    (mkMat n n fun _ _ => .fin 0, mkMat n n fun _ _ => .fin 0)
  ⟨acc.1, acc.2, locs, data.length⟩

/-- One subject's contribution inside `Model.update` (lines 400–413):
filter electrodes, z-score the correlation matrix (the update path does not
zero its diagonal first — the expansion only reads strict off-diagonal
source pairs), expand, then zero the denominator contribution wherever the
numerator contribution is invalid. -/
def updateContribs (locs : List Loc) (bo : BrainObj) (thresh : ℚ) : Mat × Mat :=
  let n := locs.length
  let bo := filter_elecs bo thresh
  let subCorrmat := matMapN bo.locs.length NVal.r2z (get_corrmat bo.data bo.locs.length)
  let subRbfWeights := rbf locs bo.locs
  let nx := (expand_corrmat_fit subCorrmat subRbfWeights n bo.locs.length).1
  let dx := (expand_corrmat_fit subCorrmat subRbfWeights n bo.locs.length).2
  (nx, mkMat n n fun i j => if (entry nx i j).isNan then .fin 0 else entry dx i j)

/-- The per-subject accumulation step of the update loop, on values. -/
def updateStepV (locs : List Loc) (thresh : ℚ) (acc : Mat × Mat × Nat) (bo : BrainObj) :
    Mat × Mat × Nat :=
  (nansumMat locs.length acc.1 (updateContribs locs bo thresh).1,
   matAddN locs.length acc.2.1 (updateContribs locs bo thresh).2,
   acc.2.2 + 1)

/-- `Model.update` (lines 364–425), value level: deep-copy semantics mean
the result is a fresh model; the numerator is merged with `np.nansum` and
the denominator with `+=` after the invalid-cell zeroing. -/
def modelUpdate (m : ModelVal) (data : List BrainObj) (thresh : ℚ) : ModelVal :=
  let acc := data.foldl (updateStepV m.locs thresh) (m.numerator, m.denominator, m.nSubs)
  ⟨acc.1, acc.2.1, m.locs, acc.2.2⟩

/-- The matrix `Model.plot` (lines 440–449) hands to the heatmap:
`z2r(numerator / denominator)` with the diagonal filled with 1. -/
def plotMatrix (m : ModelVal) : Mat :=
  let n := m.locs.length
  fillDiagN n (matMapN n NVal.z2r (matDivide n m.numerator m.denominator)) (.fin 1)

/-! ## Location alignment and prediction (`Model.predict`, lines 190–361) -/

/-- Per-channel tag of the prediction output. -/
inductive Label where
  | observed
  | reconstructed
deriving DecidableEq, Repr

/-- The `match_threshold` argument: `'auto'` or an explicit distance. -/
inductive MatchThreshold where
  | auto
  | val (v : ℚ)
deriving DecidableEq, Repr

/-- The minimum of a list of rationals (first element seeds the fold). -/
def listMin (xs : List ℚ) : ℚ :=
  match xs with
  | [] => 0
  | x :: rest => rest.foldl min x

/-- The maximum of a list of rationals. -/
def listMax (xs : List ℚ) : ℚ :=
  match xs with
  | [] => 0
  | x :: rest => rest.foldl max x

/-- The reference location nearest to a point (first minimizer in scanning
order). -/
def nearestLoc (mlocs : List Loc) (p : Loc) : Loc :=
  mlocs.foldl (fun best c => if dist2 c p < dist2 best p then c else best) (mlocs.headD loc0)

/-- Modelled from the spec: the `'auto'` distance threshold — "the largest
spacing between adjacent reference locations" (§4.4), embedded as the
largest squared nearest-neighbor spacing within the reference set (the
derivation is an open policy question in the spec; no claim depends on the
value). -/
def autoThresh2 (mlocs : List Loc) : ℚ :=
  listMax ((List.range mlocs.length).map fun i =>
    listMin ((((List.range mlocs.length).filter fun j => j ≠ i)).map fun j =>
      dist2 (mlocs.getD i loc0) (mlocs.getD j loc0)))

/-- Modelled from the spec: `near_neighbor` (§4.4) — snap each subject
electrode to its closest reference location and drop electrodes farther
from their match than the threshold (squared distances compare
equivalently). -/
def near_neighbor (bo : BrainObj) (mlocs : List Loc) (mt : MatchThreshold) : BrainObj :=
  let t2 := match mt with
    | .auto => autoThresh2 mlocs
    | .val v => v ^ 2
  let snapped := bo.locs.map fun p => nearestLoc mlocs p
  let keep := (List.range bo.locs.length).filter fun k =>
    dist2 (snapped.getD k loc0) (bo.locs.getD k loc0) ≤ t2
  ⟨selectCols bo.data keep, keep.map fun k => snapped.getD k loc0⟩

/-- Modelled from the spec: `count_overlapping` — for each reference
location, whether it coincides (by coordinate equality, §4.4) with a
subject electrode; this is the `bool_mask` of `predict` line 260. -/
def count_overlapping (mlocs blocs : List Loc) : List Bool :=
  mlocs.map fun l => decide (l ∈ blocs)

/-- `M[:, inds][inds, :]` — the simultaneous row/column permutation of
`predict` lines 295 and 313. -/
def permuteMat (M : Mat) (inds : List Nat) : Mat :=
  inds.map fun i => inds.map fun j => entry M i j

/-- The alignment outcome `predict` builds in lines 259–345: the aligned
(still z-space) correlation matrix, the final location ordering, the
per-location labels, and the subject object (whose channels the partial
branch permutes in place). -/
structure AlignOut where
  corr : Mat
  permLocs : List Loc
  labels : List Label
  bo : BrainObj
deriving DecidableEq, Repr

/-- The alignment section of `Model.predict` (lines 259–345): the
assertion-guarded overlap classification and its three branches. -/
def align (mlocs : List Loc) (mcorr : Mat) (bo : BrainObj) : Except String AlignOut :=
  let boolMask := count_overlapping mlocs bo.locs
  -- line 266: assert not all(bool_mask)
  if boolMask.all (· = true) then
    .error "model is a complete subset of patient locations"
  else
    -- line 269: indices where subject locations overlap model locations
    let jointModelInds := (List.range mlocs.length).filter fun i => mlocs.getD i loc0 ∈ bo.locs
    -- sorted(set(range(n)) - set(joint_model_inds)): ascending non-overlap indices
    let unknownInds := (List.range mlocs.length).filter fun i => mlocs.getD i loc0 ∉ bo.locs
    if boolMask.all (· = false) then
      -- lines 272–288: no overlap; expand the model over model ++ subject locations
      let nAll := mlocs.length + bo.locs.length
      let w := rbf (mlocs ++ bo.locs) mlocs
      let nx := (expand_corrmat_predict mcorr w nAll mlocs.length).1
      let dx := (expand_corrmat_predict mcorr w nAll mlocs.length).2
      .ok ⟨matDivide nAll nx dx,
           mlocs ++ bo.locs,
           List.replicate mlocs.length .reconstructed ++
             List.replicate bo.locs.length .observed,
           bo⟩
    else if boolMask.count true = bo.locs.length then
      -- lines 291–302: subject locations are a subset of model locations
      let permInds := unknownInds ++ jointModelInds
      .ok ⟨permuteMat mcorr permInds,
           permInds.map fun i => mlocs.getD i loc0,
           List.replicate (mlocs.length - bo.locs.length) .reconstructed ++
             List.replicate bo.locs.length .observed,
           bo⟩
    else
      -- lines 305–345: partial overlap
      let disjointBoInds := (List.range bo.locs.length).filter fun k => bo.locs.getD k loc0 ∉ mlocs
      let overlapBoInds := (List.range bo.locs.length).filter fun k => bo.locs.getD k loc0 ∈ mlocs
      let permInds := unknownInds ++ jointModelInds
      let modelPermuted := permuteMat mcorr permInds
      let modelLocsPermuted := permInds.map fun i => mlocs.getD i loc0
      -- line 319: overlapping subject channels first, disjoint remainder last
      let boPermInds := overlapBoInds ++ disjointBoInds
      let subBo := disjointBoInds.map fun k => bo.locs.getD k loc0
      let boPerm := BrainObj.mk (selectCols bo.data boPermInds)
        (boPermInds.map fun k => bo.locs.getD k loc0)
      let nAll := mlocs.length + subBo.length
      let w := rbf (modelLocsPermuted ++ subBo) modelLocsPermuted
      let nx := (expand_corrmat_predict modelPermuted w nAll mlocs.length).1
      let dx := (expand_corrmat_predict modelPermuted w nAll mlocs.length).2
      let expanded := matDivide nAll nx dx
      -- line 339: re-insert the unexpanded permuted model block top-left
      let corr := mkMat nAll nAll fun i j =>
        if i < mlocs.length ∧ j < mlocs.length then entry modelPermuted i j
        else entry expanded i j
      .ok ⟨corr,
           (unknownInds.map fun i => mlocs.getD i loc0) ++ boPerm.locs,
           List.replicate unknownInds.length .reconstructed ++
             List.replicate boPerm.locs.length .observed,
           boPerm⟩

/-! ## Reconstruction engine (§4.5, spec-modelled) and full predict -/

/-- One z-scored column: modelled from the spec (mean 0, unit scale); the
standard deviation is irrational, so the variance is used as the scale.  A
zero-variance column is invalid throughout (scipy: 0/0).  No claim depends
on the scale. -/
def zscoreCol (n : Nat) (xs : List ℚ) : List NVal :=
  if varQ n xs = 0 then xs.map fun _ => .nan
  else xs.map fun x => .fin ((x - meanQ xs) / varQ n xs)

/-- Modelled from the spec: `zscore` over each channel column of a
samples × channels data matrix. -/
def zscoreData (data : List (List ℚ)) : Mat :=
  let n := data.length
  let nch := (data.headD []).length
  (List.range n).map fun i => (List.range nch).map fun k =>
    (zscoreCol n (colOf data k)).getD i (.fin 0)

/-- A matrix of plain rationals (used only inside the exact pseudo-inverse). -/
abbrev QMat := List (List ℚ)

def qDot (x y : List ℚ) : ℚ := ((x.zip y).map fun p => p.1 * p.2).sum

def qScale (c : ℚ) (v : List ℚ) : List ℚ := v.map fun x => c * x

def qVecAdd (x y : List ℚ) : List ℚ := x.zipWith (· + ·) y

def qVecSub (x y : List ℚ) : List ℚ := x.zipWith (· - ·) y

/-- Linear combination `Σ coeffs_i • vecs_i` of `m`-vectors. -/
def qCombo (m : Nat) (coeffs : List ℚ) (vecs : List (List ℚ)) : List ℚ :=
  ((coeffs.zip vecs).foldl (fun acc p => qVecAdd acc (qScale p.1 p.2)) (List.replicate m 0))

/-- The columns of an `m × n` rational matrix. -/
def qCols (A : QMat) (n : Nat) : List (List ℚ) :=
  (List.range n).map fun j => A.map (·.getD j 0)

/-- One column step of Greville's recursion for the exact Moore–Penrose
pseudo-inverse: the state is the pseudo-inverse of the columns processed so
far together with those columns. -/
def grevilleStep (m : Nat) (st : QMat × List (List ℚ)) (a : List ℚ) : QMat × List (List ℚ) :=
  let P := st.1
  let done := st.2
  let d := P.map fun row => qDot row a
  let c := qVecSub a (qCombo m d done)
  let bT :=
    if c.any (· ≠ 0) then qScale (1 / qDot c c) c
    else qScale (1 / (1 + qDot d d)) (qCombo m d P)
  (((P.zip d).map fun rd => qVecSub rd.1 (qScale rd.2 bT)) ++ [bT], done ++ [a])

/-- Modelled from the spec: the exact Moore–Penrose pseudo-inverse of an
`m × n` rational matrix (§4.5 requires `pinv`, not a direct inverse,
because the known block may be singular), computed by Greville's
column-recursive method. -/
def pinvQ (A : QMat) (m n : Nat) : QMat :=
  ((qCols A n).foldl (grevilleStep m) ([], [])).1

/-- Whether a matrix holds any invalid entry. -/
def anyNanMat (M : Mat) : Bool := M.any fun row => row.any fun x => x.isNan

def toQMat (M : Mat) : QMat := M.map (·.map NVal.toQ)

/-- `np.linalg.pinv` on an `m × n` value matrix: exact on finite matrices,
all-invalid when the input has an invalid entry (numpy raises / propagates
non-finite values there; §4.5: purely numeric errors must surface). -/
def pinvN (M : Mat) (m n : Nat) : Mat :=
  if anyNanMat M then mkMat n m fun _ _ => .nan
  else (pinvQ (toQMat M) m n).map (·.map NVal.fin)

/-- `n × p` product of an `n × m` and an `m × p` value matrix. -/
def nMatMul (n m p : Nat) (A B : Mat) : Mat :=
  mkMat n p fun i k => sumN ((List.range m).map fun j => NVal.mul (entry A i j) (entry B j k))

/-- The contiguous block `M[r0:r1, c0:c1]`. -/
def blockMat (M : Mat) (r0 r1 c0 c1 : Nat) : Mat :=
  mkMat (r1 - r0) (c1 - c0) fun i j => entry M (r0 + i) (c0 + j)

/-- Modelled from the spec: `timeseries_recon` (§4.5) — split the aligned
`nAll × nAll` correlation matrix into the leading unknown block and the
trailing known block of the subject's channel count, and regress
`C_uk · pinv(C_kk) · observed_zᵀ`, transposed back to samples × unknown. -/
def timeseries_recon (bo : BrainObj) (K : Mat) (nAll : Nat) : Mat :=
  let nb := bo.locs.length
  let s := nAll - nb
  let Kuk := blockMat K 0 s s nAll
  let Kkk := blockMat K s nAll s nAll
  let Y := zscoreData bo.data
  let W := nMatMul s nb nb Kuk (pinvN Kkk nb nb)
  mkMat bo.data.length s fun t u =>
    sumN ((List.range nb).map fun c => NVal.mul (entry W u c) (entry Y t c))

/-- The brain object `predict` returns (line 360): reconstructed and
z-scored observed activations side by side, the aligner's final location
ordering, and the per-location labels. -/
structure PredBrain where
  data : Mat
  locs : List Loc
  labels : List Label
deriving DecidableEq, Repr

/-- `np.hstack` of a samples × ca and a samples × cb matrix. -/
def hstackMat (rows ca cb : Nat) (A B : Mat) : Mat :=
  mkMat rows (ca + cb) fun i j => if j < ca then entry A i j else entry B i (j - ca)

/-- The local (non-persisted) correlation estimate `predict` reconstructs
from (lines 233–257): with `force_update` the subject's own expanded
contribution is folded into a locally combined numerator/denominator;
otherwise the shared accumulators are divided as they stand. -/
def predictCorrmat (m : ModelVal) (bo : BrainObj) (forceUpdate : Bool) : Mat :=
  let n := m.locs.length
  if forceUpdate then
    let subCorrmat := fillDiagN bo.locs.length (get_corrmat bo.data bo.locs.length) (.fin 0)
    let subCorrmatZ := matMapN bo.locs.length NVal.r2z subCorrmat
    let w := rbf m.locs bo.locs
    let nx := (expand_corrmat_fit subCorrmatZ w n bo.locs.length).1
    let dx := (expand_corrmat_fit subCorrmatZ w n bo.locs.length).2
    matDivide n (matAddN n m.numerator nx) (matAddN n m.denominator dx)
  else
    matDivide n m.numerator m.denominator

/-- `Model.predict` (lines 190–361): snap, filter, build the local
correlation estimate, align, convert z→r with zero diagonal, reconstruct,
and concatenate with the z-scored observed channels. -/
def predictPure (m : ModelVal) (bo : BrainObj) (nearestNeighbor : Bool)
    (mt : MatchThreshold) (forceUpdate : Bool) (kthresh : ℚ) :
    Except String PredBrain :=
  let bo := if nearestNeighbor then near_neighbor bo m.locs mt else bo
  let bo := filter_elecs bo kthresh
  let mcorr := predictCorrmat m bo forceUpdate
  match align m.locs mcorr bo with
  | .error e => .error e
  | .ok a =>
    let nAll := a.corr.length
    let K := fillDiagN nAll (matMapN nAll NVal.z2r a.corr) (.fin 0)
    let recon := timeseries_recon a.bo K nAll
    let obs := zscoreData a.bo.data
    .ok ⟨hstackMat a.bo.data.length (nAll - a.bo.locs.length) a.bo.locs.length recon obs,
         a.permLocs, a.labels⟩

/-! ## Heap model for mutation claims

Python's `Model` holds references to shared mutable numpy arrays.  To state
non-mutation faithfully, the two accumulator arrays live in an explicit
store; a `Model` instance holds indices into it.  Array-returning numpy
calls (`np.nansum`, `np.add`, `np.divide`, `expand_corrmat_*`,
`copy.deepcopy`) allocate fresh cells, while in-place operations (`+=` on
an array) overwrite an existing cell. -/

/-- The array heap: a list of matrices, addressed by position. -/
structure Store where
  mats : List Mat
deriving DecidableEq, Repr

def Store.read (s : Store) (i : Nat) : Mat := s.mats.getD i []

/-- Allocate a fresh cell holding `M`, returning its index. -/
def Store.alloc (s : Store) (M : Mat) : Store × Nat :=
  (⟨s.mats ++ [M]⟩, s.mats.length)

/-- Overwrite cell `i` in place. -/
def Store.write (s : Store) (i : Nat) (M : Mat) : Store :=
  ⟨s.mats.set i M⟩

/-- A `Model` instance as Python sees it: references to the two accumulator
arrays, plus the (value) location set and subject count. -/
structure ModelRef where
  numIdx : Nat
  denIdx : Nat
  locs : List Loc
  nSubs : Nat
deriving DecidableEq, Repr

/-- The value snapshot a reference denotes in a store. -/
def ModelRef.val (mr : ModelRef) (s : Store) : ModelVal :=
  ⟨s.read mr.numIdx, s.read mr.denIdx, mr.locs, mr.nSubs⟩

/-- One loop iteration of `Model.update` against the store, with `denCopy`
the index of the deep-copied denominator array: the local `numerator` is
rebound to the freshly allocated `np.nansum` result, and the copied
denominator is overwritten in place by `+=`. -/
def updateStepS (locs : List Loc) (thresh : ℚ) (denCopy : Nat)
    (st : Store × Nat × Nat) (bo : BrainObj) : Store × Nat × Nat :=
  let n := locs.length
  -- numerator = np.nansum(np.dstack((numerator, num_corrmat_x)), 2)
  let s1 := (st.1.alloc (nansumMat n (st.1.read st.2.1) (updateContribs locs bo thresh).1)).1
  let numI := (st.1.alloc (nansumMat n (st.1.read st.2.1) (updateContribs locs bo thresh).1)).2
  -- denominator += denom_corrmat_x
  (s1.write denCopy (matAddN n (s1.read denCopy) (updateContribs locs bo thresh).2),
   numI, st.2.2 + 1)

/-- `Model.update` (lines 386–425) against the store: `copy.deepcopy(self)`
allocates fresh copies of both accumulators; each loop iteration runs
`updateStepS`; the original instance's cells are never written. -/
def updateStore (s : Store) (mr : ModelRef) (data : List BrainObj) (thresh : ℚ) :
    Store × ModelRef :=
  -- m = copy.deepcopy(self): fresh copies of both accumulator arrays
  -- (`alloc` hands back the cell index, which is the store length)
  let numCopy := s.mats.length
  let s1 := (s.alloc (s.read mr.numIdx)).1
  let denCopy := s1.mats.length
  let s2 := (s1.alloc (s1.read mr.denIdx)).1
  let res := data.foldl (updateStepS mr.locs thresh denCopy) (s2, numCopy, mr.nSubs)
  (res.1, ⟨res.2.1, denCopy, mr.locs, res.2.2⟩)

/-- `Model.predict` against the store.  Every array the body builds is
freshly allocated by a value-returning numpy call (`np.divide`, `np.add`,
the expansions, `z2r`, the reconstruction); the only in-place writes
(`np.fill_diagonal`, the partial-branch reassignment of `bo.locs`/`bo.data`)
target arrays created inside the call or the subject object, never the
model's accumulator cells — so the store is returned unchanged and the
result is the pure function of the model's snapshot. -/
def predictStore (s : Store) (mr : ModelRef) (bo : BrainObj) (nearestNeighbor : Bool)
    (mt : MatchThreshold) (forceUpdate : Bool) (kthresh : ℚ) :
    Store × Except String PredBrain :=
  (s, predictPure (mr.val s) bo nearestNeighbor mt forceUpdate kthresh)

/-! ## The Subject Record constructor (`src/superEEG/brain.py`) -/

/-- The `sessions` argument of `Brain.__init__`: `None`, a scalar label, a
numpy array (which has `.ravel()`), or a plain Python list (which does
not). -/
inductive SessionsArg where
  | noneArg
  | scalar (v : ℚ)
  | arr (vs : List ℚ)
  | pylist (vs : List ℚ)
deriving DecidableEq, Repr

/-- The `sample_rate` argument: `None`, a scalar, or a Python list. -/
inductive SampleRateArg where
  | noneArg
  | scalar (v : ℚ)
  | pylist (vs : List ℚ)
deriving DecidableEq, Repr

/-- A constructed `Brain` (the attributes `__init__` sets; dates and meta
are omitted). -/
structure BrainPy where
  data : List (List ℚ)
  locs : List Loc
  sessions : List ℚ
  sample_rate : List ℚ
  n_elecs : Nat
  n_secs : ℚ
  n_sessions : Nat
  kurtosis : List NVal
deriving DecidableEq, Repr

/-- The per-sample session series `__init__` builds (lines 96–102); a plain
list has no `.ravel()`, which raises. -/
def resolveSessions (nSamples : Nat) (sessions : SessionsArg) : Except String (List ℚ) :=
  match sessions with
  | .scalar v => .ok (List.replicate nSamples v)
  | .noneArg => .ok (List.replicate nSamples 1)
  | .arr vs => .ok vs
  | .pylist _ => .error "AttributeError: list object has no attribute ravel"

/-- The sample-rate list `__init__` builds (lines 104–113) and whether the
missing-rate warning fires; the `isinstance(sessions, list)` branch is
unreachable, since a plain-list `sessions` already raised at line 102. -/
def resolveRate (sessLen : Nat) (sample_rate : SampleRateArg) : List ℚ × Bool :=
  match sample_rate with
  | .pylist vs => (vs, false)
  | .noneArg => (List.replicate sessLen 1000, true)
  | .scalar v => ([v], false)

/-- `Brain.__init__` (lines 87–125).  The second component records whether
the missing-sample-rate warning was issued.  `n_secs` divides the sample
count by the first sample rate (line 120): an empty sample-rate list raises
(`IndexError`), and a zero rate divides by zero.  No shape relation between
the data columns and the locations is ever checked. -/
def brainInit (data : List (List ℚ)) (locs : List Loc) (sessions : SessionsArg)
    (sample_rate : SampleRateArg) : Except String (BrainPy × Bool) := do
  let nSamples := data.length
  let nCols := (data.headD []).length
  let sess ← resolveSessions nSamples sessions
  let sr := (resolveRate sess.length sample_rate).1
  let warned := (resolveRate sess.length sample_rate).2
  match sr with
  | [] => .error "IndexError: sample_rate list is empty"
  | r0 :: _ =>
    if r0 = 0 then .error "ZeroDivisionError: zero sample rate"
    else
      .ok (⟨data, locs, sess, sr, nCols, (nSamples : ℚ) / r0, sess.dedup.length,
            (List.range nCols).map fun k => kurtQ nSamples (colOf data k)⟩, warned)

/-! ## The CLI reconstruction driver (`src/code/recon_with_model.py`) -/

/-- What the driver finds on disk and in its input artifacts.  The `stats`
and `bookkeeping` modules it imports are not in the sources, so the loaded
arrays are carried abstractly: the subject kurtosis vector drives the
channel-count guard, and the remaining arrays feed the reconstruction
pipeline. -/
structure DriverEnv where
  outputExists : Bool
  kSubj : List ℚ
  rSubj : List Loc
  cSubj : Mat
  rFull : List Loc
  aveMat : Mat
  yData : List (List ℚ)
deriving Repr

/-- What `main` does: writes the reconstruction artifact, or prints
`'gif exists'` without writing, or prints the not-enough-electrodes
diagnostic without writing. -/
inductive DriverResult where
  | wrote (recon : Mat) (locs : List Loc)
  | gifExists
  | notEnoughElectrodes
deriving Repr

/-- Modelled from the spec: `good_chans` (§4.1) — keep the channels whose
kurtosis passes the threshold, returning the filtered locations and the
surviving channel indices. -/
def good_chans (kSubj : List ℚ) (rSubj : List Loc) (kThresh : ℚ) :
    List Loc × List Nat :=
  let keep := (List.range kSubj.length).filter fun i => kSubj.getD i 0 ≤ kThresh
  (keep.map fun i => rSubj.getD i loc0, keep)

/-- Modelled from the spec: `known_unknown` — indices of the full location
set that coincide with a subject location (known) and the rest (unknown). -/
def known_unknown (fullLocs rSubj : List Loc) : List Nat × List Nat :=
  ((List.range fullLocs.length).filter fun i => fullLocs.getD i loc0 ∈ rSubj,
   (List.range fullLocs.length).filter fun i => fullLocs.getD i loc0 ∉ rSubj)

/-- `main(fname, r, k_thresh)` (lines 19–89).  If the output artifact
already exists the pipeline is skipped entirely (line 45 / 89).  Otherwise
the kurtosis filter runs; numpy's `R_K_subj == []` comparison of an
ndarray against the empty list is scalar `False`, so the line-56 guard is
always entered, and fewer than 2 surviving channels reach the line-87
diagnostic without writing.  With 2 or more survivors the expansion and
regression pipeline (§4.3–4.5) produces the written artifact. -/
def mainDriver (env : DriverEnv) (_r : ℚ) (kThresh : ℚ) : DriverResult :=
  if env.outputExists then
    .gifExists
  else
    let rKSubj := (good_chans env.kSubj env.rSubj kThresh).1
    let kFlat := (good_chans env.kSubj env.rSubj kThresh).2
    if rKSubj.length > 1 then
      let fullLocs := env.rFull ++ rKSubj
      let nFull := fullLocs.length
      let aveMat := fillDiagN env.rFull.length
        (matMapN env.rFull.length (fun v => if v.isNan then .fin 0 else v) env.aveMat) (.fin 0)
      let w := rbf fullLocs env.rFull
      let kAve := (expand_corrmat_fit aveMat w nFull env.rFull.length).1
      let wAve := (expand_corrmat_fit aveMat w nFull env.rFull.length).2
      let aveExpand := matMapN nFull
        (fun v => if v.isNan then .fin 1 else v)
        (matMapN nFull NVal.z2r (matDivide nFull kAve wAve))
      let knownInds := (known_unknown fullLocs env.rSubj).1
      let unknownInds := (known_unknown fullLocs env.rSubj).2
      let yz := zscoreData env.yData
      let yzK := mkMat env.yData.length kFlat.length fun t c => entry yz t (kFlat.getD c 0)
      let cUK := mkMat unknownInds.length knownInds.length fun i j =>
        entry aveExpand (unknownInds.getD i 0) (knownInds.getD j 0)
      let cKK := mkMat knownInds.length knownInds.length fun i j =>
        entry aveExpand (knownInds.getD i 0) (knownInds.getD j 0)
      let wMat := nMatMul unknownInds.length knownInds.length knownInds.length
        cUK (pinvN cKK knownInds.length knownInds.length)
      let recon := mkMat env.yData.length unknownInds.length fun t u =>
        sumN ((List.range knownInds.length).map fun c =>
          NVal.mul (entry wMat u c) (entry yzK t c))
      .wrote recon env.rFull
    else
      .notEnoughElectrodes

/-! # Claims -/

/-! ## C1 — predict rejects full coverage of the reference set -/

/-- C1: for every call to `Model.predict` with a subject whose
post-snapping, post-filter locations cover every reference location of the
model — in particular when the two location sets coincide — `predict` fails
with the assertion "model is a complete subset of patient locations" (line
266) and never reaches reconstruction. -/
theorem predict_rejects_full_coverage (m : ModelVal) (bo : BrainObj)
    (nearestNeighbor : Bool) (mt : MatchThreshold) (forceUpdate : Bool) (kthresh : ℚ)
    (hcov : ∀ l ∈ m.locs,
      l ∈ (filter_elecs (if nearestNeighbor then near_neighbor bo m.locs mt else bo)
            kthresh).locs) :
    predictPure m bo nearestNeighbor mt forceUpdate kthresh =
      .error "model is a complete subset of patient locations" := by
  have hmask : (count_overlapping m.locs
      ((filter_elecs (if nearestNeighbor then near_neighbor bo m.locs mt else bo)
        kthresh).locs)).all (· = true) = true := by
    unfold count_overlapping
    rw [List.all_eq_true]
    intro b hb
    rw [List.mem_map] at hb
    obtain ⟨l, hl, rfl⟩ := hb
    simp [hcov l hl]
  unfold predictPure align
  simp only [hmask, if_true]

def mEx1 : ModelVal := ⟨[[.fin 0]], [[.fin 0]], [(0, 0, 0)], 1⟩

def boEx1 : BrainObj := ⟨[[0], [1], [2], [3]], [(0, 0, 0)]⟩

/-- C1 witness: a subject recorded exactly at the model's single reference
location is rejected. -/
theorem predict_rejects_full_coverage_witness :
    (∀ l ∈ mEx1.locs,
      l ∈ (filter_elecs (if false then near_neighbor boEx1 mEx1.locs .auto else boEx1)
            10).locs) ∧
    predictPure mEx1 boEx1 false .auto false 10 =
      .error "model is a complete subset of patient locations" :=
  ⟨by decide, predict_rejects_full_coverage mEx1 boEx1 false .auto false 10 (by decide)⟩

/-! ## C6 — ordering of the trailing known block -/

def m6locs : List Loc := [(0, 0, 0), (1, 0, 0), (2, 0, 0)]

def bo6 : BrainObj := ⟨[[1, 2], [2, 4], [4, 1], [0, 3]], [(1, 0, 0), (0, 0, 0)]⟩

def corr6 : Mat := mkMat 3 3 fun _ _ => .fin 0

/-- C6, the code evaluated at the failing input: in the subset-overlap
branch the trailing "known" block of the aligned ordering is the
overlapping reference locations in ascending model-index order
(`sorted(set(joint_model_inds))`, line 294), while the subject's channels —
whose z-scored data are concatenated unpermuted (line 357) — stay in the
subject's own order.  Here the model covers `[(0,0,0),(1,0,0),(2,0,0)]` and
the subject recorded `[(1,0,0),(0,0,0)]`: the trailing block comes out as
`[(0,0,0),(1,0,0)]`, not the subject's channel order, contradicting the
claimed (and spec-required, §4.5) correspondence. -/
theorem align_known_block_order_mismatch :
    (align m6locs corr6 bo6).toOption.map (fun out =>
      (out.permLocs.drop (out.permLocs.length - out.bo.locs.length), out.bo.locs))
      = some ([(0, 0, 0), (1, 0, 0)], [(1, 0, 0), (0, 0, 0)]) ∧
    ([(0, 0, 0), (1, 0, 0)] : List Loc) ≠ [(1, 0, 0), (0, 0, 0)] := by
  decide

/-! ## C8 — the matrix `Model.plot` visualizes -/

def mEx8 : ModelVal := ⟨[[.fin 0]], [[.fin 0]], [(0, 0, 0)], 1⟩

/-- C8 counterexample: `Model.plot` fills the diagonal of the displayed
matrix with 1 (line 448, `np.fill_diagonal(corr_mat, 1)`), not 0 as the
claim states — already refuted on a one-location model. -/
theorem plot_diag_not_zero :
    entry (plotMatrix mEx8) 0 0 = NVal.fin 1 ∧ entry (plotMatrix mEx8) 0 0 ≠ NVal.fin 0 := by
  decide

/-- C8 amended: the matrix `Model.plot` hands to the visualization is
`z2r(numerator / denominator)` with the diagonal set to one, for every
model state. -/
theorem plot_matrix_spec (m : ModelVal) (i j : Nat)
    (hi : i < m.locs.length) (hj : j < m.locs.length) :
    entry (plotMatrix m) i j =
      if i = j then NVal.fin 1
      else NVal.z2r (NVal.div (entry m.numerator i j) (entry m.denominator i j)) := by
  unfold plotMatrix fillDiagN
  rw [entry_mkMat _ hi hj]
  by_cases h : i = j
  · simp [h]
  · simp only [h, if_false]
    unfold matMapN
    rw [entry_mkMat _ hi hj]
    unfold matDivide
    rw [entry_mkMat _ hi hj]

/-- C8 witness for the amended statement, on the same one-location model. -/
theorem plot_matrix_spec_witness :
    (0 < mEx8.locs.length) ∧
    entry (plotMatrix mEx8) 0 0 =
      if 0 = 0 then NVal.fin 1
      else NVal.z2r (NVal.div (entry mEx8.numerator 0 0) (entry mEx8.denominator 0 0)) :=
  ⟨by decide, plot_matrix_spec mEx8 0 0 (by decide) (by decide)⟩

/-! ## C9 — driver skip and insufficient-channel guard -/

/-- C9: the CLI driver skips the whole pipeline (writing nothing) when the
output artifact already exists, and when fewer than 2 channels survive the
kurtosis filter it prints the diagnostic and exits without writing (only
the `DriverResult.wrote` outcome carries an artifact). -/
theorem driver_skip_and_guard (env : DriverEnv) (r k : ℚ) :
    (env.outputExists = true → mainDriver env r k = .gifExists) ∧
    (env.outputExists = false →
      (good_chans env.kSubj env.rSubj k).1.length < 2 →
        mainDriver env r k = .notEnoughElectrodes) := by
  constructor
  · intro h
    unfold mainDriver
    simp [h]
  · intro h hlt
    unfold mainDriver
    simp only [h, Bool.false_eq_true, if_false]
    have hg : ¬ ((good_chans env.kSubj env.rSubj k).1.length > 1) := by omega
    simp [hg]

def env9a : DriverEnv := ⟨false, [20, 3], [(0, 0, 0), (1, 0, 0)], [], [], [], []⟩

def env9b : DriverEnv := ⟨true, [], [], [], [], [], []⟩

/-- C9 witness: with the artifact absent and a single surviving channel the
driver prints the diagnostic; with the artifact present it skips. -/
theorem driver_skip_and_guard_witness :
    mainDriver env9a 1 10 = .notEnoughElectrodes ∧ mainDriver env9b 1 10 = .gifExists :=
  ⟨(driver_skip_and_guard env9a 1 10).2 rfl (by decide),
   (driver_skip_and_guard env9b 1 10).1 rfl⟩

/-! ## C5 — no shape validation at Brain construction -/

def c5data : List (List ℚ) := [[1, 2], [2, 3], [4, 1], [0, 5]]

def c5locs : List Loc := [(0, 0, 0), (1, 0, 0), (2, 0, 0)]

/-- C5 counterexample: a `Brain` whose timeseries has 2 channels but whose
location set has 3 rows is constructed successfully — `Brain.__init__`
performs no shape check, so the claimed construction-time `ShapeMismatch`
rejection does not exist and the claimed invariant fails on a constructed
object. -/
theorem brain_shape_mismatch_accepted :
    ((brainInit c5data c5locs .noneArg (.scalar 100)).toOption.map fun p => p.1.n_elecs)
      = some 2 ∧ c5locs.length = 3 := by
  decide

/-- C5 amended: `Brain.__init__` never validates the channel count against
the location set; whenever construction succeeds, `n_elecs` is the data's
column count and the locations are stored as given, with no required
relation between the two. -/
theorem brainInit_no_shape_check (data : List (List ℚ)) (locs : List Loc)
    (sessions : SessionsArg) (sample_rate : SampleRateArg) (b : BrainPy) (w : Bool)
    (h : (brainInit data locs sessions sample_rate).toOption = some (b, w)) :
    b.n_elecs = (data.headD []).length ∧ b.locs = locs := by
  have h2 : brainInit data locs sessions sample_rate = .ok (b, w) := by
    cases hx : brainInit data locs sessions sample_rate with
    | error e => rw [hx] at h; simp [Except.toOption] at h
    | ok p =>
      rw [hx] at h
      simp only [Except.toOption, Option.some.injEq] at h
      rw [h]
  clear h
  unfold brainInit at h2
  cases sessions <;> simp only [resolveSessions, Except.bind, bind] at h2
  case pylist => exact absurd h2 (by simp)
  all_goals
    split at h2
    · exact absurd h2 (by simp)
    · split at h2
      · exact absurd h2 (by simp)
      · rw [Except.ok.injEq, Prod.mk.injEq] at h2
        obtain ⟨hb, -⟩ := h2
        subst hb
        exact ⟨rfl, rfl⟩

def c5brain : BrainPy :=
  ⟨c5data, c5locs, [1, 1, 1, 1], [100], 2, 1 / 25, 1,
   [.fin (2261 / 1225), .fin (2261 / 1225)]⟩

/-- C5 witness for the amended statement: the mismatched-shape construction
above succeeds and reports `n_elecs = 2` while 3 locations were stored. -/
theorem brainInit_no_shape_check_witness :
    (brainInit c5data c5locs .noneArg (.scalar 100)).toOption = some (c5brain, false) ∧
    (c5brain.n_elecs = (c5data.headD []).length ∧ c5brain.locs = c5locs) :=
  ⟨by decide, brainInit_no_shape_check c5data c5locs .noneArg (.scalar 100) c5brain false
    (by decide)⟩

/-! ## C10 — defaulting of a missing sample rate -/

/-- C10 counterexample: `Brain` constructed with `sample_rate=None` and no
samples fails — the defaulted rate list `[1000 for s in sessions]` is empty
and line 120 (`self.sample_rate[0]`) raises `IndexError`; construction does
not succeed for every `sample_rate=None` call. -/
theorem brain_none_rate_can_fail :
    (brainInit [] [] .noneArg .noneArg).isOk = false := by
  decide

/-- C10 amended: with `sample_rate=None`, whenever the resolved session
series is nonempty (for the default or scalar `sessions` arguments: whenever
there is at least one sample), construction succeeds, the warning is
issued, the sample rate defaults to one 1000 per session entry, and
`n_secs` is the sample count divided by 1000. -/
theorem brain_none_rate_defaults (data : List (List ℚ)) (locs : List Loc)
    (sessions : SessionsArg) (sess : List ℚ)
    (hs : resolveSessions data.length sessions = .ok sess) (hne : sess ≠ []) :
    (brainInit data locs sessions .noneArg).toOption.map
        (fun p => (p.1.sample_rate, p.1.n_secs, p.2))
      = some (List.replicate sess.length 1000, (data.length : ℚ) / 1000, true) := by
  unfold brainInit
  simp only [hs, Except.bind, bind, resolveRate]
  cases sess with
  | nil => exact absurd rfl hne
  | cons s0 rest =>
    simp only [List.length_cons, List.replicate_succ]
    norm_num [Except.toOption]

def c10data : List (List ℚ) := [[1], [2]]

/-- C10 witness for the amended statement: two samples, default sessions,
`sample_rate=None`: the rate defaults to `[1000, 1000]` with the warning
and `n_secs = 2/1000`. -/
theorem brain_none_rate_defaults_witness :
    resolveSessions c10data.length .noneArg = .ok [1, 1] ∧ ([1, 1] : List ℚ) ≠ [] ∧
    (brainInit c10data [] .noneArg .noneArg).toOption.map
        (fun p => (p.1.sample_rate, p.1.n_secs, p.2))
      = some (List.replicate ([1, 1] : List ℚ).length 1000, (c10data.length : ℚ) / 1000, true) :=
  ⟨rfl, by decide,
   brain_none_rate_defaults c10data [] .noneArg [1, 1] rfl (by decide)⟩

/-! ## C7 — invalid numerator cells are absent, not zero -/

theorem NVal.isNan_iff (v : NVal) : v.isNan = true ↔ v = .nan := by
  cases v <;> simp [NVal.isNan]

/-- C7: in every `Model.update` step, a cell where the subject's expanded
numerator contribution is invalid is treated as absent rather than zero:
the zeroed denominator contribution (line 413) is 0 there, `np.nansum`
leaves the accumulated numerator's finite content unchanged (line 416), the
denominator accumulator is unchanged, and any cell whose accumulated
denominator weight is zero divides to an invalid ("unknown") estimate
rather than a confident zero correlation. -/
theorem update_nan_cell_absent (locs : List Loc) (num den numAcc denAcc : Mat)
    (bo : BrainObj) (thresh : ℚ) (i j : Nat)
    (hi : i < locs.length) (hj : j < locs.length)
    (hnan : (entry (updateContribs locs bo thresh).1 i j).isNan = true)
    (hden0 : entry denAcc i j = .fin 0) :
    entry (updateContribs locs bo thresh).2 i j = .fin 0 ∧
    entry (nansumMat locs.length num (updateContribs locs bo thresh).1) i j
      = .fin (entry num i j).toQ ∧
    entry (matAddN locs.length den (updateContribs locs bo thresh).2) i j = entry den i j ∧
    (entry (matDivide locs.length numAcc denAcc) i j).isNan = true := by
  have hmk : entry (updateContribs locs bo thresh).2 i j = .fin 0 := by
    simp only [updateContribs] at hnan ⊢
    rw [entry_mkMat _ hi hj, hnan]
    simp
  refine ⟨hmk, ?_, ?_, ?_⟩
  · unfold nansumMat
    rw [entry_mkMat _ hi hj]
    rw [(NVal.isNan_iff _).mp hnan]
    simp [NVal.nansum2, NVal.toQ]
  · unfold matAddN
    rw [entry_mkMat _ hi hj, hmk]
    exact NVal.add_fin_zero _
  · unfold matDivide
    rw [entry_mkMat _ hi hj, hden0]
    cases entry numAcc i j <;> simp [NVal.div, NVal.isNan]

def locs7 : List Loc := [(5, 0, 0), (6, 0, 0)]

def bo7 : BrainObj := ⟨[[0, 0], [2, 2]], [(0, 0, 0), (1, 0, 0)]⟩

def zeros2 : Mat := mkMat 2 2 fun _ _ => .fin 0

/-- C7 witness: two perfectly correlated channels give `r = 1`, whose
z-transform is invalid, so the expanded numerator contribution at (0,1) is
invalid; the theorem's conclusions are evaluated on that cell against
all-zero accumulators. -/
theorem update_nan_cell_absent_witness :
    (0 < locs7.length) ∧ (1 < locs7.length) ∧
    ((entry (updateContribs locs7 bo7 10).1 0 1).isNan = true) ∧
    (entry zeros2 0 1 = .fin 0) ∧
    (entry (updateContribs locs7 bo7 10).2 0 1 = .fin 0 ∧
     entry (nansumMat locs7.length zeros2 (updateContribs locs7 bo7 10).1) 0 1
       = .fin (entry zeros2 0 1).toQ ∧
     entry (matAddN locs7.length zeros2 (updateContribs locs7 bo7 10).2) 0 1 = entry zeros2 0 1 ∧
     (entry (matDivide locs7.length zeros2 zeros2) 0 1).isNan = true) :=
  ⟨by decide, by decide, by decide, by decide,
   update_nan_cell_absent locs7 zeros2 zeros2 zeros2 zeros2 bo7 10 0 1
     (by decide) (by decide) (by decide) (by decide)⟩

/-! ## C4 — symmetry and zero diagonal of the accumulators -/

/-- The §3 accumulator invariant: an `n × n` matrix that is symmetric with
zero diagonal. -/
def SymmZero (n : Nat) (M : Mat) : Prop :=
  (∀ i j, i < n → j < n → entry M i j = entry M j i) ∧
  (∀ i, i < n → entry M i i = .fin 0)

theorem covQ_comm (n : Nat) (xs ys : List ℚ) : covQ n xs ys = covQ n ys xs := by
  unfold covQ
  congr 1
  exact Finset.sum_congr rfl fun i _ => by ring

theorem get_corrmat_symm (d : List (List ℚ)) (nch k l : Nat)
    (hk : k < nch) (hl : l < nch) :
    entry (get_corrmat d nch) k l = entry (get_corrmat d nch) l k := by
  unfold get_corrmat
  rw [entry_mkMat _ hk hl, entry_mkMat _ hl hk]
  by_cases h : varQ d.length (colOf d k) = 0 ∨ varQ d.length (colOf d l) = 0
  · rw [if_pos h, if_pos (Or.symm h)]
  · rw [if_neg h, if_neg fun hc => h (Or.symm hc)]
    rw [covQ_comm, mul_comm]

theorem weightProd_swap (W : Mat) (i j k l : Nat) :
    weightProd W i j k l = weightProd W j i k l := by
  unfold weightProd
  rw [NVal.addComm, NVal.mulComm (entry W i l), NVal.mulComm (entry W i k)]

theorem expand_fit_symmZero (Z W : Mat) (n s : Nat) :
    SymmZero n (expand_corrmat_fit Z W n s).1 ∧ SymmZero n (expand_corrmat_fit Z W n s).2 := by
  unfold expand_corrmat_fit
  refine ⟨⟨?_, ?_⟩, ⟨?_, ?_⟩⟩
  · intro i j hi hj
    rw [entry_mkMat _ hi hj, entry_mkMat _ hj hi]
    by_cases h : i = j
    · rw [if_pos h, if_pos h.symm]
    · rw [if_neg h, if_neg fun hc => h hc.symm]
      unfold expandNum
      congr 1
      refine List.map_congr_left fun kl _ => ?_
      rw [weightProd_swap]
  · intro i hi
    rw [entry_mkMat _ hi hi, if_pos rfl]
  · intro i j hi hj
    rw [entry_mkMat _ hi hj, entry_mkMat _ hj hi]
    by_cases h : i = j
    · rw [if_pos h, if_pos h.symm]
    · rw [if_neg h, if_neg fun hc => h hc.symm]
      unfold expandDen
      congr 1
      refine List.map_congr_left fun kl _ => ?_
      rw [weightProd_swap]
  · intro i hi
    rw [entry_mkMat _ hi hi, if_pos rfl]

theorem matAddN_symmZero {n : Nat} {A B : Mat}
    (hA : SymmZero n A) (hB : SymmZero n B) : SymmZero n (matAddN n A B) := by
  constructor
  · intro i j hi hj
    unfold matAddN
    rw [entry_mkMat _ hi hj, entry_mkMat _ hj hi, hA.1 i j hi hj, hB.1 i j hi hj]
  · intro i hi
    unfold matAddN
    rw [entry_mkMat _ hi hi, hA.2 i hi, hB.2 i hi]
    simp [NVal.add]

theorem nansumMat_symmZero {n : Nat} {A B : Mat}
    (hA : SymmZero n A) (hB : SymmZero n B) : SymmZero n (nansumMat n A B) := by
  constructor
  · intro i j hi hj
    unfold nansumMat
    rw [entry_mkMat _ hi hj, entry_mkMat _ hj hi, hA.1 i j hi hj, hB.1 i j hi hj]
  · intro i hi
    unfold nansumMat
    rw [entry_mkMat _ hi hi, hA.2 i hi, hB.2 i hi]
    simp [NVal.nansum2, NVal.toQ]

theorem fitContribs_symmZero (locs : List Loc) (bo : BrainObj) (thresh : ℚ) :
    SymmZero locs.length (fitContribs locs bo thresh).1 ∧
    SymmZero locs.length (fitContribs locs bo thresh).2 := by
  simp only [fitContribs]
  exact expand_fit_symmZero _ _ _ _

theorem updateContribs_symmZero (locs : List Loc) (bo : BrainObj) (thresh : ℚ) :
    SymmZero locs.length (updateContribs locs bo thresh).1 ∧
    SymmZero locs.length (updateContribs locs bo thresh).2 := by
  simp only [updateContribs]
  have hx := expand_fit_symmZero
    (matMapN (filter_elecs bo thresh).locs.length NVal.r2z
      (get_corrmat (filter_elecs bo thresh).data (filter_elecs bo thresh).locs.length))
    (rbf locs (filter_elecs bo thresh).locs) locs.length (filter_elecs bo thresh).locs.length
  refine ⟨hx.1, ⟨?_, ?_⟩⟩
  · intro i j hi hj
    rw [entry_mkMat _ hi hj, entry_mkMat _ hj hi, hx.1.1 i j hi hj, hx.2.1 i j hi hj]
  · intro i hi
    rw [entry_mkMat _ hi hi, hx.1.2 i hi]
    simpa [NVal.isNan] using hx.2.2 i hi

theorem zeros_symmZero (n : Nat) : SymmZero n (mkMat n n fun _ _ => .fin 0) := by
  constructor
  · intro i j hi hj
    rw [entry_mkMat _ hi hj, entry_mkMat _ hj hi]
  · intro i hi
    rw [entry_mkMat _ hi hi]

theorem foldl_fitStep_symmZero (locs : List Loc) (thresh : ℚ) :
    ∀ (data : List BrainObj) (acc : Mat × Mat),
      SymmZero locs.length acc.1 → SymmZero locs.length acc.2 →
      SymmZero locs.length (data.foldl (fitStep locs thresh) acc).1 ∧
      SymmZero locs.length (data.foldl (fitStep locs thresh) acc).2 := by
  intro data
  induction data with
  | nil => exact fun acc h1 h2 => ⟨h1, h2⟩
  | cons bo rest ih =>
    intro acc h1 h2
    rw [List.foldl_cons]
    exact ih _ (matAddN_symmZero h1 (fitContribs_symmZero locs bo thresh).1)
      (matAddN_symmZero h2 (fitContribs_symmZero locs bo thresh).2)

theorem foldl_updateStepV_symmZero (locs : List Loc) (thresh : ℚ) :
    ∀ (data : List BrainObj) (acc : Mat × Mat × Nat),
      SymmZero locs.length acc.1 → SymmZero locs.length acc.2.1 →
      SymmZero locs.length (data.foldl (updateStepV locs thresh) acc).1 ∧
      SymmZero locs.length (data.foldl (updateStepV locs thresh) acc).2.1 := by
  intro data
  induction data with
  | nil => exact fun acc h1 h2 => ⟨h1, h2⟩
  | cons bo rest ih =>
    intro acc h1 h2
    rw [List.foldl_cons]
    exact ih _ (nansumMat_symmZero h1 (updateContribs_symmZero locs bo thresh).1)
      (matAddN_symmZero h2 (updateContribs_symmZero locs bo thresh).2)

theorem modelFit_symmZero (locs : List Loc) (bos : List BrainObj) (thresh : ℚ) :
    SymmZero locs.length (modelFit locs bos thresh).numerator ∧
    SymmZero locs.length (modelFit locs bos thresh).denominator := by
  simp only [modelFit]
  exact foldl_fitStep_symmZero locs thresh bos _ (zeros_symmZero _) (zeros_symmZero _)

theorem modelUpdate_symmZero (m : ModelVal) (data : List BrainObj) (thresh : ℚ)
    (h1 : SymmZero m.locs.length m.numerator) (h2 : SymmZero m.locs.length m.denominator) :
    SymmZero m.locs.length (modelUpdate m data thresh).numerator ∧
    SymmZero m.locs.length (modelUpdate m data thresh).denominator := by
  simp only [modelUpdate]
  exact foldl_updateStepV_symmZero m.locs thresh data _ h1 h2

theorem modelUpdate_locs (m : ModelVal) (data : List BrainObj) (thresh : ℚ) :
    (modelUpdate m data thresh).locs = m.locs := rfl

theorem foldl_updates_symmZero (locs : List Loc) :
    ∀ (updates : List (List BrainObj × ℚ)) (m : ModelVal), m.locs = locs →
      SymmZero locs.length m.numerator → SymmZero locs.length m.denominator →
      (updates.foldl (fun m u => modelUpdate m u.1 u.2) m).locs = locs ∧
      SymmZero locs.length (updates.foldl (fun m u => modelUpdate m u.1 u.2) m).numerator ∧
      SymmZero locs.length (updates.foldl (fun m u => modelUpdate m u.1 u.2) m).denominator := by
  intro updates
  induction updates with
  | nil => exact fun m hl h1 h2 => ⟨hl, h1, h2⟩
  | cons u rest ih =>
    intro m hl h1 h2
    rw [List.foldl_cons]
    have hml : (modelUpdate m u.1 u.2).locs = locs := by rw [modelUpdate_locs]; exact hl
    have hu := modelUpdate_symmZero m u.1 u.2 (hl ▸ h1) (hl ▸ h2)
    exact ih _ hml (hl ▸ hu.1) (hl ▸ hu.2)

/-! ## C2 — update and force_update never mutate the original model -/

theorem Store.read_alloc_old (s : Store) (M : Mat) (i : Nat) (hi : i < s.mats.length) :
    (s.alloc M).1.read i = s.read i := by
  unfold Store.alloc Store.read
  exact List.getD_append _ _ _ _ hi

theorem Store.read_alloc_new (s : Store) (M : Mat) :
    (s.alloc M).1.read s.mats.length = M := by
  unfold Store.alloc Store.read
  rw [List.getD_append_right _ _ _ _ (le_refl _)]
  simp

theorem Store.length_alloc (s : Store) (M : Mat) :
    (s.alloc M).1.mats.length = s.mats.length + 1 := by
  simp [Store.alloc]

theorem Store.length_write (s : Store) (i : Nat) (M : Mat) :
    (s.write i M).mats.length = s.mats.length := by
  simp [Store.write]

theorem Store.read_write_ne (s : Store) (i j : Nat) (M : Mat) (h : j ≠ i) :
    (s.write j M).read i = s.read i := by
  unfold Store.write Store.read
  rw [List.getD_eq_getElem?_getD, List.getD_eq_getElem?_getD, List.getElem?_set_ne h]

theorem Store.read_write_self (s : Store) (j : Nat) (M : Mat) (h : j < s.mats.length) :
    (s.write j M).read j = M := by
  unfold Store.write Store.read
  rw [List.getD_eq_getElem?_getD, List.getElem?_set_eq_of_lt _ h]
  rfl

/-- The store-level update loop refines the value-level loop: old cells
other than the denominator copy are untouched, the running numerator and
denominator cells carry exactly the value-level accumulators, and the
indices stay in range. -/
theorem updateStepS_foldl_inv (locs : List Loc) (thresh : ℚ) (denI : Nat) :
    ∀ (data : List BrainObj) (s : Store) (numI nS : Nat),
      numI < s.mats.length → denI < s.mats.length → numI ≠ denI →
      (∀ i, i < s.mats.length → i ≠ denI →
        (data.foldl (updateStepS locs thresh denI) (s, numI, nS)).1.read i = s.read i) ∧
      ((data.foldl (updateStepS locs thresh denI) (s, numI, nS)).1.read
          (data.foldl (updateStepS locs thresh denI) (s, numI, nS)).2.1
        = (data.foldl (updateStepV locs thresh) (s.read numI, s.read denI, nS)).1) ∧
      ((data.foldl (updateStepS locs thresh denI) (s, numI, nS)).1.read denI
        = (data.foldl (updateStepV locs thresh) (s.read numI, s.read denI, nS)).2.1) ∧
      ((data.foldl (updateStepS locs thresh denI) (s, numI, nS)).2.2
        = (data.foldl (updateStepV locs thresh) (s.read numI, s.read denI, nS)).2.2) ∧
      (data.foldl (updateStepS locs thresh denI) (s, numI, nS)).2.1
        < (data.foldl (updateStepS locs thresh denI) (s, numI, nS)).1.mats.length ∧
      denI < (data.foldl (updateStepS locs thresh denI) (s, numI, nS)).1.mats.length ∧
      s.mats.length ≤ (data.foldl (updateStepS locs thresh denI) (s, numI, nS)).1.mats.length := by
  intro data
  induction data with
  | nil =>
    intro s numI nS hnum hden _
    exact ⟨fun i _ _ => rfl, rfl, rfl, rfl, hnum, hden, le_refl _⟩
  | cons bo rest ih =>
    intro s numI nS hnum hden hne
    rw [List.foldl_cons, List.foldl_cons]
    have hstep : updateStepS locs thresh denI (s, numI, nS) bo =
        ((s.alloc (nansumMat locs.length (s.read numI) (updateContribs locs bo thresh).1)).1.write
            denI
            (matAddN locs.length
              ((s.alloc (nansumMat locs.length (s.read numI)
                  (updateContribs locs bo thresh).1)).1.read denI)
              (updateContribs locs bo thresh).2),
          s.mats.length, nS + 1) := rfl
    rw [hstep]
    set X := nansumMat locs.length (s.read numI) (updateContribs locs bo thresh).1 with hX
    set s1 := (s.alloc X).1 with hs1
    have hlen1 : s1.mats.length = s.mats.length + 1 := Store.length_alloc s X
    have hd1 : denI < s1.mats.length := by omega
    have hdne : denI ≠ s.mats.length := by omega
    set s2 := s1.write denI (matAddN locs.length (s1.read denI) (updateContribs locs bo thresh).2)
      with hs2
    have hlen2 : s2.mats.length = s.mats.length + 1 := by
      rw [hs2, Store.length_write, hlen1]
    have hreadDen1 : s1.read denI = s.read denI := Store.read_alloc_old s X denI hden
    have hreadNum2 : s2.read s.mats.length = X := by
      rw [hs2, Store.read_write_ne _ _ _ _ hdne, hs1, Store.read_alloc_new]
    have hreadDen2 : s2.read denI =
        matAddN locs.length (s.read denI) (updateContribs locs bo thresh).2 := by
      rw [hs2, Store.read_write_self _ _ _ hd1, hreadDen1]
    have hold2 : ∀ i, i < s.mats.length → i ≠ denI → s2.read i = s.read i := by
      intro i hi hidiff
      rw [hs2, Store.read_write_ne _ _ _ _ (Ne.symm hidiff), hs1,
        Store.read_alloc_old s X i hi]
    have hrec := ih s2 s.mats.length (nS + 1) (by omega) (by omega) (Ne.symm hdne)
    have hv : updateStepV locs thresh (s.read numI, s.read denI, nS) bo =
        (X, matAddN locs.length (s.read denI) (updateContribs locs bo thresh).2, nS + 1) := rfl
    rw [hv]
    rw [hreadNum2, hreadDen2] at hrec
    refine ⟨?_, hrec.2.1, hrec.2.2.1, hrec.2.2.2.1, hrec.2.2.2.2.1, hrec.2.2.2.2.2.1, ?_⟩
    · intro i hi hidiff
      rw [hrec.1 i (by omega) hidiff, hold2 i hi hidiff]
    · have := hrec.2.2.2.2.2.2
      omega

/-- C2: `Model.update` never mutates the instance it is called on — the
original store cells of `numerator` and `denominator` are unchanged, and
only the returned model carries the updated accumulators and subject count
(exactly the value-level `modelUpdate` of the original snapshot); and
`Model.predict` with `force_update = True` folds the subject's contribution
only into a locally computed estimate, leaving the instance's cells
unchanged. -/
theorem update_predict_no_mutation (s : Store) (mr : ModelRef) (data : List BrainObj)
    (thresh : ℚ) (bo : BrainObj) (nn : Bool) (mt : MatchThreshold) (kthresh : ℚ)
    (hnum : mr.numIdx < s.mats.length) (hden : mr.denIdx < s.mats.length) :
    ((updateStore s mr data thresh).1.read mr.numIdx = s.read mr.numIdx ∧
     (updateStore s mr data thresh).1.read mr.denIdx = s.read mr.denIdx ∧
     (updateStore s mr data thresh).2.val (updateStore s mr data thresh).1
       = modelUpdate (mr.val s) data thresh) ∧
    ((predictStore s mr bo nn mt true kthresh).1.read mr.numIdx = s.read mr.numIdx ∧
     (predictStore s mr bo nn mt true kthresh).1.read mr.denIdx = s.read mr.denIdx) := by
  refine ⟨?_, rfl, rfl⟩
  simp only [updateStore]
  set s1 := (s.alloc (s.read mr.numIdx)).1 with hs1
  have hlen1 : s1.mats.length = s.mats.length + 1 := Store.length_alloc _ _
  set s2 := (s1.alloc (s1.read mr.denIdx)).1 with hs2
  have hlen2 : s2.mats.length = s.mats.length + 2 := by
    rw [hs2, Store.length_alloc, hlen1]
  have hreadNumCopy : s2.read s.mats.length = s.read mr.numIdx := by
    rw [hs2, Store.read_alloc_old _ _ _ (by omega), hs1, Store.read_alloc_new]
  have hreadDenCopy : s2.read s1.mats.length = s.read mr.denIdx := by
    rw [hs2, Store.read_alloc_new, hs1, Store.read_alloc_old _ _ _ hden]
  have hold : ∀ i, i < s.mats.length → s2.read i = s.read i := by
    intro i hi
    rw [hs2, Store.read_alloc_old _ _ _ (by omega), hs1, Store.read_alloc_old _ _ _ hi]
  have hinv := updateStepS_foldl_inv mr.locs thresh s1.mats.length data s2
    s.mats.length mr.nSubs (by omega) (by omega) (by omega)
  rw [hreadNumCopy, hreadDenCopy] at hinv
  refine ⟨?_, ?_, ?_⟩
  · rw [hinv.1 mr.numIdx (by omega) (by omega), hold mr.numIdx hnum]
  · rw [hinv.1 mr.denIdx (by omega) (by omega), hold mr.denIdx hden]
  · simp only [ModelRef.val, modelUpdate, ModelVal.mk.injEq]
    exact ⟨hinv.2.1, hinv.2.2.1, trivial, hinv.2.2.2.1⟩

def store2 : Store := ⟨[[[.fin 1]], [[.fin 2]]]⟩

def mr2 : ModelRef := ⟨0, 1, [(0, 0, 0)], 1⟩

def bo2w : BrainObj := ⟨[[0], [1], [2], [3]], [(0, 0, 0)]⟩

/-- C2 witness: a two-cell store holding a one-location model, updated and
force-update-predicted with a concrete subject; the original cells are
unchanged and the returned model is the value-level update. -/
theorem update_predict_no_mutation_witness :
    (mr2.numIdx < store2.mats.length) ∧ (mr2.denIdx < store2.mats.length) ∧
    (((updateStore store2 mr2 [bo2w] 10).1.read mr2.numIdx = store2.read mr2.numIdx ∧
      (updateStore store2 mr2 [bo2w] 10).1.read mr2.denIdx = store2.read mr2.denIdx ∧
      (updateStore store2 mr2 [bo2w] 10).2.val (updateStore store2 mr2 [bo2w] 10).1
        = modelUpdate (mr2.val store2) [bo2w] 10) ∧
     ((predictStore store2 mr2 bo2w false .auto true 10).1.read mr2.numIdx
        = store2.read mr2.numIdx ∧
      (predictStore store2 mr2 bo2w false .auto true 10).1.read mr2.denIdx
        = store2.read mr2.denIdx)) :=
  ⟨by decide, by decide,
   update_predict_no_mutation store2 mr2 [bo2w] 10 bo2w false .auto 10
     (by decide) (by decide)⟩

/-- C4: for every sequence of subjects, the numerator and denominator are
symmetric with zero diagonal after `Model` construction from data (the fit
path) and after every subsequent chain of `Model.update` calls. -/
theorem fit_update_symm_zero_diag (locs : List Loc) (bos : List BrainObj) (thresh : ℚ)
    (updates : List (List BrainObj × ℚ)) :
    SymmZero locs.length
      (updates.foldl (fun m u => modelUpdate m u.1 u.2) (modelFit locs bos thresh)).numerator ∧
    SymmZero locs.length
      (updates.foldl (fun m u => modelUpdate m u.1 u.2) (modelFit locs bos thresh)).denominator := by
  have hfit := modelFit_symmZero locs bos thresh
  have := foldl_updates_symmZero locs updates (modelFit locs bos thresh) rfl hfit.1 hfit.2
  exact ⟨this.2.1, this.2.2⟩

/-! ## C3 — permutation completeness of the aligner -/

/-- Mapping an ascending filtered index list back through the list recovers
the plain filter: the index bookkeeping
`sorted(set(range(n)) - set(...))` of `predict` enumerates exactly the
elements satisfying the predicate, in order. -/
theorem filterIdx_map (l : List α) (p : α → Bool) (d : α) :
    (((List.range l.length).filter fun i => p (l.getD i d)).map fun i => l.getD i d)
      = l.filter p := by
  induction l with
  | nil => rfl
  | cons a t ih =>
    rw [List.length_cons, List.range_succ_eq_map, List.filter_cons]
    have hmap : ((List.range t.length).map (· + 1)).filter
          (fun i => p ((a :: t).getD i d))
        = ((List.range t.length).filter fun i => p (t.getD i d)).map (· + 1) := by
      rw [List.filter_map]
      congr 1
    by_cases hpa : p ((a :: t).getD 0 d) = true
    · rw [if_pos hpa, List.map_cons, hmap, List.map_map]
      have : ((fun i => (a :: t).getD i d) ∘ (· + 1)) = fun i => t.getD i d := by
        funext i
        simp [List.getD_cons_succ]
      rw [this, ih]
      have hpa' : p a = true := by simpa [List.getD_cons_zero] using hpa
      simp [List.filter_cons, hpa', List.getD_cons_zero]
    · rw [if_neg hpa, hmap, List.map_map]
      have : ((fun i => (a :: t).getD i d) ∘ (· + 1)) = fun i => t.getD i d := by
        funext i
        simp [List.getD_cons_succ]
      rw [this, ih]
      have hpa' : ¬ p a = true := by simpa [List.getD_cons_zero] using hpa
      simp [List.filter_cons, hpa']

/-- `sum(bool_mask)` (the count of `True` in `count_overlapping`) is the
number of reference locations that coincide with a subject location. -/
theorem count_overlapping_count_true (mlocs blocs : List Loc) :
    (count_overlapping mlocs blocs).count true
      = (mlocs.filter fun l => decide (l ∈ blocs)).length := by
  unfold count_overlapping
  induction mlocs with
  | nil => rfl
  | cons a t ih =>
    rw [List.map_cons, List.count_cons, List.filter_cons]
    by_cases h : a ∈ blocs <;> simp [h, ih]

/-- If no entry of the mask is `True`, no reference location lies in the
subject's set. -/
theorem count_overlapping_all_false {mlocs blocs : List Loc}
    (h : (count_overlapping mlocs blocs).all (· = false) = true) :
    ∀ l ∈ mlocs, l ∉ blocs := by
  intro l hl
  have := List.all_eq_true.mp h (decide (l ∈ blocs)) (List.mem_map_of_mem _ hl)
  simpa using this

/-- When the overlap count equals the subject's size (the subset branch
condition) and both sets are duplicate-free, every subject location is a
reference location. -/
theorem subset_of_overlap_count {mlocs blocs : List Loc}
    (hm : mlocs.Nodup) (hb : blocs.Nodup)
    (h : (mlocs.filter fun l => decide (l ∈ blocs)).length = blocs.length) :
    ∀ x ∈ blocs, x ∈ mlocs := by
  intro x hx
  have hsubF : (mlocs.filter fun l => decide (l ∈ blocs)).toFinset ⊆ blocs.toFinset := by
    intro y hy
    rw [List.mem_toFinset] at hy ⊢
    have h1 := List.of_mem_filter hy
    exact of_decide_eq_true h1
  have hcard : blocs.toFinset.card ≤
      (mlocs.filter fun l => decide (l ∈ blocs)).toFinset.card := by
    rw [List.toFinset_card_of_nodup (hm.filter _), List.toFinset_card_of_nodup hb, h]
  have heq := Finset.eq_of_subset_of_card_le hsubF hcard
  have hxF : x ∈ (mlocs.filter fun l => decide (l ∈ blocs)).toFinset := by
    rw [heq, List.mem_toFinset]
    exact hx
  rw [List.mem_toFinset] at hxF
  exact List.mem_of_mem_filter hxF

/-- Counting inside a filtered list when the element fails the filter. -/
theorem count_filter_neg {p : Loc → Bool} {a : Loc} (l : List Loc) (h : p a = false) :
    (l.filter p).count a = 0 := by
  refine List.count_eq_zero_of_not_mem fun hmem => ?_
  have := List.of_mem_filter hmem
  rw [h] at this
  exact Bool.false_ne_true this

theorem filterIdx_map_mem (l bs : List Loc) :
    (((List.range l.length).filter fun i => decide (l.getD i loc0 ∈ bs)).map
        fun i => l.getD i loc0)
      = l.filter fun x => decide (x ∈ bs) :=
  filterIdx_map l (fun x => decide (x ∈ bs)) loc0

theorem filterIdx_map_not_mem (l bs : List Loc) :
    (((List.range l.length).filter fun i => decide (l.getD i loc0 ∉ bs)).map
        fun i => l.getD i loc0)
      = l.filter fun x => decide (x ∉ bs) :=
  filterIdx_map l (fun x => decide (x ∉ bs)) loc0

/-- The two membership filters partition a list. -/
theorem length_filter_mem_partition (l bs : List Loc) :
    (l.filter fun x => decide (x ∉ bs)).length + (l.filter fun x => decide (x ∈ bs)).length
      = l.length := by
  simp only [decide_not]
  induction l with
  | nil => rfl
  | cons a t ih =>
    by_cases h : a ∈ bs <;> simp [List.filter_cons, h] <;> omega

/-- In a duplicate-free list, a member is counted exactly once (stated for
any lawful `BEq`, matching the instances the alignment goals carry). -/
theorem count_eq_one_of_mem_nodup {α : Type} [BEq α] [LawfulBEq α] {l : List α} {a : α}
    (hn : l.Nodup) (ha : a ∈ l) : l.count a = 1 := by
  induction l with
  | nil => exact absurd ha (List.not_mem_nil a)
  | cons b t ih =>
    rw [List.count_cons]
    rcases List.mem_cons.mp ha with rfl | hat
    · rw [List.count_eq_zero_of_not_mem (List.nodup_cons.mp hn).1]
      simp
    · have hne : ¬(b == a) = true := fun hba =>
        (List.nodup_cons.mp hn).1 ((eq_of_beq hba) ▸ hat)
      rw [ih (List.nodup_cons.mp hn).2 hat]
      simp [hne]

/-- C3: whichever branch of the alignment runs (no overlap, subset overlap,
partial overlap), when the location sets are duplicate-free the returned
ordering contains every reference location and every subject location
exactly once, the label list is exactly as long as the ordering, and each
label is `observed` or `reconstructed`. -/
theorem align_permutation_complete (mlocs : List Loc) (mcorr : Mat) (bo : BrainObj)
    (hm : mlocs.Nodup) (hb : bo.locs.Nodup) (out : AlignOut)
    (hout : align mlocs mcorr bo = .ok out) :
    (∀ l ∈ mlocs, out.permLocs.count l = 1) ∧
    (∀ l ∈ bo.locs, out.permLocs.count l = 1) ∧
    out.labels.length = out.permLocs.length ∧
    (∀ lab ∈ out.labels, lab = Label.observed ∨ lab = Label.reconstructed) := by
  have hlab : ∀ (lab : Label), lab = Label.observed ∨ lab = Label.reconstructed := by
    intro lab
    cases lab <;> simp
  simp only [align] at hout
  split at hout
  · exact absurd hout (by simp)
  case isFalse hAssert =>
  split at hout
  case isTrue hNone =>
    rw [Except.ok.injEq] at hout
    subst hout
    have hdisj := count_overlapping_all_false hNone
    refine ⟨?_, ?_, ?_, fun lab _ => hlab lab⟩
    · intro l hl
      simp only
      rw [List.count_append, count_eq_one_of_mem_nodup hm hl,
        List.count_eq_zero_of_not_mem (hdisj l hl)]
    · intro l hl
      have hnm : l ∉ mlocs := fun hlm => hdisj l hlm hl
      simp only
      rw [List.count_append, List.count_eq_zero_of_not_mem hnm,
        count_eq_one_of_mem_nodup hb hl]
    · simp
  case isFalse hSome =>
  split at hout
  case isTrue hCnt =>
    rw [Except.ok.injEq] at hout
    subst hout
    rw [count_overlapping_count_true] at hCnt
    have hsub := subset_of_overlap_count hm hb hCnt
    have hmem := filterIdx_map_mem mlocs bo.locs
    have hnmem := filterIdx_map_not_mem mlocs bo.locs
    have hcount : ∀ l ∈ mlocs,
        ((((List.range mlocs.length).filter fun i => decide (mlocs.getD i loc0 ∉ bo.locs)) ++
            ((List.range mlocs.length).filter fun i => decide (mlocs.getD i loc0 ∈ bo.locs))).map
          fun i => mlocs.getD i loc0).count l = 1 := by
      intro l hl
      rw [List.map_append, hmem, hnmem, List.count_append]
      by_cases hlb : l ∈ bo.locs
      · rw [count_filter_neg _ (by simp [hlb]), List.count_filter (by simp [hlb]),
          count_eq_one_of_mem_nodup hm hl]
      · rw [List.count_filter (by simp [hlb]), count_filter_neg _ (by simp [hlb]),
          count_eq_one_of_mem_nodup hm hl]
    refine ⟨?_, ?_, ?_, fun lab _ => hlab lab⟩
    · intro l hl
      exact hcount l hl
    · intro l hl
      exact hcount l (hsub l hl)
    · simp only [List.length_append, List.length_replicate, List.length_map]
      have hpart := length_filter_mem_partition mlocs bo.locs
      have hle := List.length_filter_le (fun x => decide (x ∈ bo.locs)) mlocs
      rw [← List.length_map _ fun i => mlocs.getD i loc0, ← List.length_map _
        fun i => mlocs.getD i loc0, hmem, hnmem] at *
      omega
  case isFalse hCnt =>
    rw [Except.ok.injEq] at hout
    subst hout
    have hmemB := filterIdx_map_mem bo.locs mlocs
    have hnmemB := filterIdx_map_not_mem bo.locs mlocs
    have hnmemM := filterIdx_map_not_mem mlocs bo.locs
    refine ⟨?_, ?_, ?_, fun lab _ => hlab lab⟩
    · intro l hl
      simp only
      rw [List.map_append, hmemB, hnmemB, hnmemM, List.count_append, List.count_append]
      by_cases hlb : l ∈ bo.locs
      · rw [count_filter_neg _ (by simp [hlb]), List.count_filter (by simp [hl]),
          count_filter_neg _ (by simp [hl]), count_eq_one_of_mem_nodup hb hlb]
      · rw [List.count_filter (by simp [hlb]), count_eq_one_of_mem_nodup hm hl,
          List.count_filter (by simp [hl]), List.count_eq_zero_of_not_mem hlb,
          count_filter_neg _ (by simp [hl])]
    · intro l hl
      simp only
      rw [List.map_append, hmemB, hnmemB, hnmemM, List.count_append, List.count_append]
      by_cases hlm : l ∈ mlocs
      · rw [count_filter_neg _ (by simp [hl]), List.count_filter (by simp [hlm]),
          count_filter_neg _ (by simp [hlm]), count_eq_one_of_mem_nodup hb hl]
      · rw [count_filter_neg _ (by simp [hl]), count_filter_neg _ (by simp [hlm]),
          List.count_filter (by simp [hlm]), count_eq_one_of_mem_nodup hb hl]
    · simp

def mlocs3 : List Loc := [(0, 0, 0), (1, 0, 0)]

def mcorr3 : Mat := [[.fin 0, .fin 0], [.fin 0, .fin 0]]

def bo3 : BrainObj := ⟨[[1], [2], [4], [0]], [(1, 0, 0)]⟩

def out3 : AlignOut :=
  ⟨[[.fin 0, .fin 0], [.fin 0, .fin 0]], [(0, 0, 0), (1, 0, 0)],
   [.reconstructed, .observed], bo3⟩

/-- C3 witness: a two-location model and a one-location subject hitting the
subset branch; the computed alignment lists each location once with one
label per position. -/
theorem align_permutation_complete_witness :
    mlocs3.Nodup ∧ bo3.locs.Nodup ∧ align mlocs3 mcorr3 bo3 = .ok out3 ∧
    ((∀ l ∈ mlocs3, out3.permLocs.count l = 1) ∧
     (∀ l ∈ bo3.locs, out3.permLocs.count l = 1) ∧
     out3.labels.length = out3.permLocs.length ∧
     (∀ lab ∈ out3.labels, lab = Label.observed ∨ lab = Label.reconstructed)) :=
  ⟨by decide, by decide, by rfl,
   align_permutation_complete mlocs3 mcorr3 bo3 (by decide) (by decide) out3 (by rfl)⟩

end SupereegProof
